import Mathlib

/-!
Verification of the PyTuneGrab download pipeline (`src/pytunegrab/core.py`,
with its historical duplicate `src/build/lib/pytunegrab/core.py`).

The embedding models the local filesystem as a list of file paths, directories
as a list of directory paths, and Python exceptions as an explicit error type
threaded through `Except`.  External collaborators (the pytube search, playlist
lookup and stream transfer capabilities, the moviepy codec, the slugify
library) are modelled as parameters or, where their contract is fixed by the
spec, as concrete functions; everything else is translated directly from the
Python source.
-/

namespace PyTuneGrab

/-! ## Python primitives -/

/-- Python exception kinds that appear in `core.py` and in its collaborators. -/
inductive PyErr where
  | fileNotFound
  | noAudio
  | noStream
  | notFound
  | keyError
  | otherError
  | fileExists
  deriving DecidableEq

/-- Insert a string into a list-as-set, keeping it duplicate free. -/
def insertOnce (l : List String) (x : String) : List String :=
  if x ∈ l then l else x :: l

/-- The filesystem model: the list of files that currently exist. -/
abbrev FS := List String

/-- Writing a file creates it (overwriting in place if it already exists). -/
def writeFile (fs : FS) (p : String) : FS := insertOnce fs p

/-- `Path.unlink` / deletion of a file. -/
def removeFile (fs : FS) (p : String) : FS := fs.erase p

/-- Python `str.replace` worker: replaces every non-overlapping occurrence of
`pat`, scanning left to right, spending one unit of fuel per character kept or
per match consumed.  Fuel equal to the input length is always enough. -/
def replaceFuel (pat repl : List Char) : Nat → List Char → List Char
  | 0, s => s
  | _ + 1, [] => []
  | fuel + 1, c :: rest =>
    if pat.isPrefixOf (c :: rest) && !pat.isEmpty then
      repl ++ replaceFuel pat repl fuel ((c :: rest).drop pat.length)
    else
      c :: replaceFuel pat repl fuel rest

/-- Python `str.replace`: every occurrence of `pat` in `s` becomes `repl`. -/
def pyReplace (s pat repl : String) : String :=
  ⟨replaceFuel pat.data repl.data s.data.length s.data⟩

/-! ## Path helpers (`pathlib` / `os.path` fragment used by the code) -/

/-- `Path(p).parent`: everything before the final slash, `"."` if none. -/
def parentDir (p : String) : String :=
  if p.data.contains '/' then
    ⟨((p.data.reverse.dropWhile (· != '/')).drop 1).reverse⟩
  else "."

/-- `Path(d) / f` rendered back to a string. -/
def joinPath (d f : String) : String := if d = "." then f else d ++ "/" ++ f

/-- Split a character list at `'/'` separators. -/
def splitSlashAux (cur : List Char) : List Char → List (List Char)
  | [] => [cur.reverse]
  | c :: rest =>
    if c = '/' then cur.reverse :: splitSlashAux [] rest
    else splitSlashAux (c :: cur) rest

/-- The `'/'`-separated segments of a path. -/
def pathSegs (p : String) : List String :=
  (splitSlashAux [] p.data).map (fun l => ⟨l⟩)

/-- Rejoin path segments with `'/'`. -/
def joinSegs : List String → String
  | [] => ""
  | [s] => s
  | s :: rest => s ++ "/" ++ joinSegs rest

/-- Every ancestor of a path, shortest first, the path itself included. -/
def ancestors (p : String) : List String :=
  (List.range (pathSegs p).length).map (fun k => joinSegs ((pathSegs p).take (k + 1)))

/-- Create a directory together with all of its missing ancestors. -/
def addAncestors (ds : List String) (p : String) : List String :=
  (ancestors p).foldl insertOnce ds

/-- `os.makedirs` over the directory-set model: with `exist_ok` the call never
fails; without it a pre-existing directory raises `FileExistsError`. -/
def os_makedirs (exist_ok : Bool) (ds : List String) (p : String) :
    Except PyErr (List String) :=
  if p ∈ ds && !exist_ok then Except.error PyErr.fileExists
  else Except.ok (addAncestors ds p)

/-! ## slugify (external library, modelled from its documented behaviour:
lowercase, non-alphanumeric runs collapsed to single dashes, dashes trimmed
at both ends) -/

/-- Alphanumeric test used by the slug model. -/
def isAlnum (c : Char) : Bool := c.isAlpha || c.isDigit

/-- Collapse runs of consecutive dashes to a single dash. -/
def collapseDash : List Char → List Char
  | [] => []
  | [c] => [c]
  | a :: b :: rest =>
    if a == '-' && b == '-' then collapseDash (b :: rest)
    else a :: collapseDash (b :: rest)

/-- Remove trailing dashes. -/
def trimRightDash : List Char → List Char
  | [] => []
  | c :: rest =>
    match trimRightDash rest with
    | [] => if c == '-' then [] else [c]
    | out => c :: out

/-- Remove leading and trailing dashes. -/
def trimDash (l : List Char) : List Char :=
  trimRightDash (l.dropWhile (· == '-'))

/-- The slug of a title: lowercase, with every non-alphanumeric run collapsed
to a single dash and no dash at either end. -/
def slugify (title : String) : String :=
  ⟨trimDash (collapseDash (title.data.map (fun c => if isAlnum c then c.toLower else '-')))⟩

/-! ## core.py top-level helpers -/

/-- `convert_to_mp3` from `core.py`: fails if the source does not exist, probes
the audio track through the external codec, writes the output at
`str(file_path).replace(".mp4", ".mp3")` and then unlinks the source.  The
codec write is modelled as atomic: on failure nothing is written. -/
def convert_to_mp3 (hasAudio : String → Bool) (fs : FS) (file_path : String) :
    Except PyErr (FS × String) :=
  if file_path ∈ fs then
    if hasAudio file_path then
      let mp3_path := pyReplace file_path ".mp4" ".mp3"
      Except.ok (removeFile (writeFile fs mp3_path) file_path, mp3_path)
    else Except.error PyErr.noAudio
  else Except.error PyErr.fileNotFound

/-- `slugify_rename` from `core.py`: slugifies the title and moves the
materialized file to `parent / (slug ++ ".mp4")` — the `.mp4` suffix is a
fixed literal in the source. -/
def slugify_rename (title : String) (fs : FS) (audio_path : String) : FS × String :=
  let t := slugify title
  let new_path := joinPath (parentDir audio_path) (t ++ ".mp4")
  (writeFile (removeFile fs audio_path) new_path, new_path)

/-! ## Streams, items and the strategy state -/

/-- A pytube stream handle: the transfer capability materializes it under its
default file name inside the output directory. -/
structure StreamH where
  defaultName : String
  deriving DecidableEq

/-- A resolved remote item (`YouTube` object): its title and the stream
variants `streams.get_audio_only()` / `streams.get_highest_resolution()`
would select, `none` when no such variant exists. -/
structure Item where
  title : String
  audioStream : Option StreamH
  videoStream : Option StreamH
  deriving DecidableEq

/-- Mutable state touched by a single-item run: the directories and files. -/
structure DlState where
  dirs : List String
  files : FS
  deriving DecidableEq

/-- `Stream.download(out_path, skip_existing=True)` (external transfer
capability): if the target file already exists the transfer is skipped,
otherwise the bytes are transferred; the boolean reports whether a transfer
was actually performed. -/
def streamDownload (fs : FS) (out_path : String) (name : String) : FS × String × Bool :=
  let target := joinPath out_path name
  if target ∈ fs then (fs, target, false)
  else (writeFile fs target, target, true)

/-- Python falsy default: `if not out_path: out_path = "downloads"`. -/
def outOrDefault (out_path : Option String) : String := out_path.getD "downloads"

/-- `DownloadStrategy.handle_download`: transfer with `skip_existing=True`,
then the optional slugify rename. -/
def handle_download (st : DlState) (out_path : Option String) (stream : StreamH)
    (title : String) (do_slugify : Bool) : DlState × String × Bool :=
  let out := outOrDefault out_path
  let r := streamDownload st.files out stream.defaultName
  if do_slugify then
    let r2 := slugify_rename title r.1 r.2.1
    ({ st with files := r2.1 }, r2.2, r.2.2)
  else
    ({ st with files := r.1 }, r.2.1, r.2.2)

/-- `DownloadStrategy._download_audio_only`: audio variant, always slugified. -/
def download_audio_only (st : DlState) (item : Item) (out_path : Option String) :
    Except PyErr (DlState × String × Bool) :=
  match item.audioStream with
  | none => Except.error PyErr.noStream
  | some s => Except.ok (handle_download st out_path s item.title true)

/-- `DownloadStrategy._download_video_only`: video variant with an explicit
`do_slugify` argument. -/
def download_video_only (st : DlState) (item : Item) (out_path : Option String)
    (do_slugify : Bool) : Except PyErr (DlState × String × Bool) :=
  match item.videoStream with
  | none => Except.error PyErr.noStream
  | some s => Except.ok (handle_download st out_path s item.title do_slugify)

/-- `DownloadStrategy.create_download_directory`:
`os.makedirs(path, exist_ok=True)`, which never fails. -/
def create_download_directory (ds : List String) (p : String) : List String :=
  addAncestors ds p

/-- Result of a `download` call: a single path with its transfer flag, or the
list produced by the playlist branch. -/
inductive DlOut where
  | single (path : String) (transferred : Bool)
  | many (paths : List String)
  deriving DecidableEq

/-- `DownloadStrategy.download` from `core.py`: creates the fixed
`"downloads"` directory, branches on the playlist check (`isPl` is the truthy
value of `is_playlist_url(search)`, the branch itself abstracted as
`playlistRun`), otherwise resolves the query through the searcher and runs one
item.  The audio branch downloads with slugify and converts to mp3; the video
branch passes `audio_only` (that is, `False`) as `do_slugify`, exactly as the
source does. -/
def download (searchFn : String → Except PyErr Item) (hasAudio : String → Bool)
    (isPl : Bool) (playlistRun : DlState → Except PyErr (DlState × List String))
    (st : DlState) (query : String) (out_path : Option String) (audio_only : Bool) :
    Except PyErr (DlState × DlOut) :=
  let st1 : DlState := { st with dirs := create_download_directory st.dirs "downloads" }
  if isPl then
    match playlistRun st1 with
    | Except.error e => Except.error e
    | Except.ok (st2, ps) => Except.ok (st2, DlOut.many ps)
  else
    match searchFn query with
    | Except.error e => Except.error e
    | Except.ok item =>
      if audio_only then
        match download_audio_only st1 item out_path with
        | Except.error e => Except.error e
        | Except.ok (st2, p, tr) =>
          match convert_to_mp3 hasAudio st2.files p with
          | Except.error e => Except.error e
          | Except.ok (fs3, mp3) =>
            Except.ok ({ st2 with files := fs3 }, DlOut.single mp3 tr)
      else
        match download_video_only st1 item out_path audio_only with
        | Except.error e => Except.error e
        | Except.ok (st2, p, tr) => Except.ok (st2, DlOut.single p tr)

/-- `AudioDownload.download` from `src/pytunegrab/core.py`: it awaits
`super().download(...)` but has no `return` statement, so the call evaluates
to Python `None` while the state changes still take place. -/
def AudioDownload_download (searchFn : String → Except PyErr Item)
    (hasAudio : String → Bool) (isPl : Bool)
    (playlistRun : DlState → Except PyErr (DlState × List String))
    (st : DlState) (query : String) (out_path : Option String) :
    Except PyErr (DlState × Option DlOut) :=
  match download searchFn hasAudio isPl playlistRun st query out_path true with
  | Except.error e => Except.error e
  | Except.ok (st2, _) => Except.ok (st2, none)

/-- `DownloadStrategy.is_playlist_url` from `core.py`: only `KeyError` is
caught (returning `False`); a non-empty member list returns `True`; an empty
one falls off the end of the function and returns Python `None`; any other
lookup failure propagates to the caller. -/
def is_playlist_url (lookup : String → Except PyErr (List Item)) (url : String) :
    Except PyErr (Option Bool) :=
  match lookup url with
  | Except.error PyErr.keyError => Except.ok (some false)
  | Except.error e => Except.error e
  | Except.ok vids => if vids.isEmpty then Except.ok none else Except.ok (some true)

/-- Python truthiness of an `Optional[bool]` value. -/
def pyTruthy : Option Bool → Bool
  | none => false
  | some b => b

/-! ## The playlist pipeline (`download_playlist`) -/

/-- The `playlist` property setter: expanding a playlist URL appends its
members to the existing `_queue_for_download`; the queue is never cleared. -/
def setPlaylist {α : Type} (expand : String → List α) (queue : List α)
    (url : String) : List α :=
  queue ++ expand url

/-- Collect a list of task results positionally, stopping at the first error
in list order; used by the gather model when no task failed earlier in the
completion schedule. -/
def okList : List (Except PyErr String) → Except PyErr (List String)
  | [] => Except.ok []
  | Except.ok a :: rest => (okList rest).map (fun l => a :: l)
  | Except.error e :: _ => Except.error e

/-- The error produced by task `i`, if any. -/
def errAt (rs : List (Except PyErr String)) (i : Nat) : Option PyErr :=
  match rs.get? i with
  | some (Except.error e) => some e
  | _ => none

/-- `asyncio.gather(*tasks)` without `return_exceptions`, parameterized by the
completion schedule `sched` (the order in which tasks finish): the
earliest-completing failure is re-raised to the awaiter, discarding every
sibling result; when no task fails the results are returned positionally, in
the order the awaitables were passed. -/
def gatherSched (sched : List Nat) (rs : List (Except PyErr String)) :
    Except PyErr (List String) :=
  match (sched.filterMap (errAt rs)).head? with
  | some e => Except.error e
  | none => okList rs

/-- `DownloadStrategy.download_playlist`: assigns the playlist URL to the
`playlist` property (appending to the queue), then gathers one task per queued
item; `process` is the per-item body (`to_thread` download plus the optional
mp3 conversion), pure because each task owns its item's files exclusively. -/
def download_playlist {α : Type} (expand : String → List α)
    (process : α → Except PyErr String) (sched : List Nat) (queue : List α)
    (url : String) : List α × Except PyErr (List String) :=
  let q1 := setPlaylist expand queue url
  (q1, gatherSched sched (q1.map process))

/-! ## The semaphore-bounded scheduler (`asyncio.Semaphore(4)`) -/

/-- `max_concurrent_tasks = 4` in `download_playlist`. -/
def max_concurrent_tasks : Nat := 4

/-- The phase of one playlist task. -/
inductive TStatus where
  | pending
  | materializing
  | transcoding
  | done
  deriving DecidableEq

/-- A task occupies a semaphore slot while materializing or transcoding. -/
def slotBusy : TStatus → Bool
  | TStatus.materializing => true
  | TStatus.transcoding => true
  | _ => false

/-- How many tasks are in flight (holding a slot) right now. -/
def inFlight (p : List TStatus) : Nat := p.countP slotBusy

/-- One scheduler step of the semaphore-bounded run: a pending task may enter
the pool only while fewer than `limit` slots are busy (`async with semaphore`
suspends it otherwise); a task keeps its slot through its whole
materialize-then-transcode sequence and frees it only on completion
(video-mode tasks complete straight from materializing). -/
inductive PoolStep (limit : Nat) : List TStatus → List TStatus → Prop where
  | start (p : List TStatus) (i : Nat) :
      p.get? i = some TStatus.pending → inFlight p < limit →
      PoolStep limit p (p.set i TStatus.materializing)
  | toTranscode (p : List TStatus) (i : Nat) :
      p.get? i = some TStatus.materializing →
      PoolStep limit p (p.set i TStatus.transcoding)
  | finishAudio (p : List TStatus) (i : Nat) :
      p.get? i = some TStatus.transcoding →
      PoolStep limit p (p.set i TStatus.done)
  | finishVideo (p : List TStatus) (i : Nat) :
      p.get? i = some TStatus.materializing →
      PoolStep limit p (p.set i TStatus.done)

/-- Reachability under the scheduler steps. -/
inductive PoolReach (limit : Nat) : List TStatus → List TStatus → Prop where
  | refl (p : List TStatus) : PoolReach limit p p
  | step (p q r : List TStatus) :
      PoolReach limit p q → PoolStep limit q r → PoolReach limit p r

/-! ## Concrete environments used by the per-claim counterexamples -/

/-- A playlist expansion with three members, used by the C1 scenario. -/
def C1expand : String → List String := fun _ => ["v0", "v1", "v2"]

/-- A per-item body where exactly the middle item fails its transcode. -/
def C1process : String → Except PyErr String :=
  fun v => if v = "v1" then Except.error PyErr.noAudio else Except.ok (v ++ ".mp3")

/-- A playlist branch that is never taken in the single-item scenarios. -/
def noPlaylistRun : DlState → Except PyErr (DlState × List String) :=
  fun _ => Except.error PyErr.otherError

/-- The item materialized in the C4 idempotence scenario. -/
def C4item : Item :=
  { title := "My Song"
    audioStream := some { defaultName := "My Song.mp4" }
    videoStream := some { defaultName := "My Song.mp4" } }

/-- A deterministic searcher resolving every query to `C4item`. -/
def C4search : String → Except PyErr Item := fun _ => Except.ok C4item

/-- The item fetched in the C5 return-value scenario. -/
def C5item : Item :=
  { title := "Tune"
    audioStream := some { defaultName := "Tune.mp4" }
    videoStream := some { defaultName := "Tune.mp4" } }

/-- A deterministic searcher resolving every query to `C5item`. -/
def C5search : String → Except PyErr Item := fun _ => Except.ok C5item

/-- The item fetched in the C8 directory-creation scenario. -/
def C8item : Item :=
  { title := "Vid"
    audioStream := none
    videoStream := some { defaultName := "Vid.mp4" } }

/-- A deterministic searcher resolving every query to `C8item`. -/
def C8search : String → Except PyErr Item := fun _ => Except.ok C8item


/-! ## Further named paths and concrete witness environments -/

/-- The characters of the `".mp4"` extension literal. -/
def mp4ext : List Char := ".mp4".data

/-- The characters of the `".mp3"` extension literal. -/
def mp3ext : List Char := ".mp3".data

/-- The path a slugified download ends up at: the slug plus the fixed `.mp4`
suffix, inside the directory the stream was transferred into. -/
def slugTarget (out : Option String) (s : StreamH) (t : String) : String :=
  joinPath (parentDir (joinPath (outOrDefault out) s.defaultName)) (slugify t ++ ".mp4")

/-- The path an unslugified (video-branch) download ends up at: the stream's
default name inside the output directory. -/
def vidTarget (out : Option String) (s : StreamH) : String :=
  joinPath (outOrDefault out) s.defaultName

/-- A two-item playlist used by the C2 witness. -/
def C2expand : String → List String := fun _ => ["first", "second"]

/-- A per-item body that always succeeds, used by the C2 witness. -/
def C2process : String → Except PyErr String := fun v => Except.ok (v ++ ".mp3")

/-- A two-playlist expansion used by the C10 witness. -/
def C10expand : String → List String :=
  fun u => if u = "plOne" then ["a", "b"] else ["c"]

/-- A per-item body that always succeeds, used by the C10 witness. -/
def C10process : String → Except PyErr String := fun v => Except.ok (v ++ ".mp3")

/-! ## Basic lemmas about the set-like list operations -/

theorem mem_insertOnce_self (l : List String) (x : String) : x ∈ insertOnce l x := by
  unfold insertOnce
  by_cases h : x ∈ l
  · simp [h]
  · simp [h]

theorem mem_insertOnce_of_mem (l : List String) (x y : String) (h : y ∈ l) :
    y ∈ insertOnce l x := by
  unfold insertOnce
  by_cases hx : x ∈ l
  · simpa [hx]
  · simp [hx, h]

theorem mem_insertOnce_elim (l : List String) (x y : String)
    (h : y ∈ insertOnce l x) : y = x ∨ y ∈ l := by
  unfold insertOnce at h
  by_cases hx : x ∈ l
  · simp [hx] at h
    exact Or.inr h
  · simp [hx] at h
    exact h

theorem nodup_insertOnce (l : List String) (x : String) (h : l.Nodup) :
    (insertOnce l x).Nodup := by
  unfold insertOnce
  by_cases hx : x ∈ l
  · simpa [hx]
  · simp [hx, h]

theorem foldl_insertOnce_mem_mono (L : List String) (ds : List String) (a : String)
    (h : a ∈ ds) : a ∈ L.foldl insertOnce ds := by
  induction L generalizing ds with
  | nil => simpa
  | cons x t ih => exact ih (insertOnce ds x) (mem_insertOnce_of_mem ds x a h)

theorem foldl_insertOnce_all_mem (L : List String) (ds : List String) :
    ∀ a ∈ L, a ∈ L.foldl insertOnce ds := by
  induction L generalizing ds with
  | nil => intro a ha; cases ha
  | cons x t ih =>
    intro a ha
    rcases List.mem_cons.mp ha with rfl | ha
    · exact foldl_insertOnce_mem_mono t (insertOnce ds a) a (mem_insertOnce_self ds a)
    · exact ih (insertOnce ds x) a ha

theorem foldl_insertOnce_id (L : List String) (ds : List String)
    (h : ∀ a ∈ L, a ∈ ds) : L.foldl insertOnce ds = ds := by
  induction L with
  | nil => rfl
  | cons x t ih =>
    have hx : x ∈ ds := h x (List.mem_cons_self x t)
    have : insertOnce ds x = ds := by simp [insertOnce, hx]
    rw [List.foldl_cons, this]
    exact ih (fun a ha => h a (List.mem_cons_of_mem x ha))

theorem addAncestors_idem (ds : List String) (p : String) :
    addAncestors (addAncestors ds p) p = addAncestors ds p :=
  foldl_insertOnce_id (ancestors p) (addAncestors ds p)
    (fun a ha => foldl_insertOnce_all_mem (ancestors p) ds a ha)

/-! ## Lemmas for the semaphore-bounded pool -/

theorem countP_set_get {α : Type} (f : α → Bool) :
    ∀ (l : List α) (i : Nat) (a b : α), l.get? i = some a →
      (l.set i b).countP f + (if f a then 1 else 0) =
        l.countP f + (if f b then 1 else 0) := by
  intro l
  induction l with
  | nil => intro i a b h; cases h
  | cons x xs ih =>
    intro i a b h
    cases i with
    | zero =>
      simp only [List.get?] at h
      cases h
      simp only [List.set, List.countP_cons]
      omega
    | succ j =>
      simp only [List.get?] at h
      have := ih j a b h
      simp only [List.set, List.countP_cons]
      omega

theorem poolStep_inFlight {limit : Nat} {p q : List TStatus}
    (h : PoolStep limit p q) (hp : inFlight p ≤ limit) : inFlight q ≤ limit := by
  cases h with
  | start i hi hlt =>
    have hc := countP_set_get slotBusy p i TStatus.pending TStatus.materializing hi
    simp [slotBusy] at hc
    unfold inFlight at *
    omega
  | toTranscode i hi =>
    have hc := countP_set_get slotBusy p i TStatus.materializing TStatus.transcoding hi
    simp [slotBusy] at hc
    unfold inFlight at *
    omega
  | finishAudio i hi =>
    have hc := countP_set_get slotBusy p i TStatus.transcoding TStatus.done hi
    simp [slotBusy] at hc
    unfold inFlight at *
    omega
  | finishVideo i hi =>
    have hc := countP_set_get slotBusy p i TStatus.materializing TStatus.done hi
    simp [slotBusy] at hc
    unfold inFlight at *
    omega

theorem poolReach_inFlight {limit : Nat} {p q : List TStatus}
    (h : PoolReach limit p q) (hp : inFlight p ≤ limit) : inFlight q ≤ limit := by
  induction h with
  | refl => exact hp
  | step q r hreach hstep ih => exact poolStep_inFlight hstep ih

theorem inFlight_replicate_pending (n : Nat) :
    inFlight (List.replicate n TStatus.pending) = 0 := by
  induction n with
  | zero => rfl
  | succ k ih =>
    simp only [List.replicate, inFlight, List.countP_cons] at *
    simp [slotBusy, ih]


/-! ## Lemmas about the gather model -/

theorem okList_map_ok {α : Type} (l : List α) (f : α → Except PyErr String)
    (h : ∀ x ∈ l, ∃ p, f x = Except.ok p) :
    ∃ vs, okList (l.map f) = Except.ok vs ∧ vs.length = l.length ∧
      ∀ i (hi : i < l.length) (hv : i < vs.length),
        f (l.get ⟨i, hi⟩) = Except.ok (vs.get ⟨i, hv⟩) := by
  induction l with
  | nil => exact ⟨[], rfl, rfl, fun i hi => absurd hi (Nat.not_lt_zero i)⟩
  | cons x t ih =>
    obtain ⟨p, hp⟩ := h x (List.mem_cons_self x t)
    obtain ⟨vs, hvs, hlen, hidx⟩ := ih (fun y hy => h y (List.mem_cons_of_mem x hy))
    refine ⟨p :: vs, ?_, by simp [hlen], ?_⟩
    · simp [List.map_cons, okList, hp, hvs, Except.map]
    · intro i hi hv
      cases i with
      | zero => simpa using hp
      | succ j => exact hidx j (Nat.lt_of_succ_lt_succ hi) (Nat.lt_of_succ_lt_succ hv)

theorem errAt_all_ok {α : Type} (l : List α) (f : α → Except PyErr String)
    (h : ∀ x ∈ l, ∃ p, f x = Except.ok p) (j : Nat) : errAt (l.map f) j = none := by
  unfold errAt
  cases hg : (l.map f).get? j with
  | none => rfl
  | some r =>
    have hr : r ∈ l.map f := List.get?_mem hg
    obtain ⟨x, hx, hfx⟩ := List.mem_map.mp hr
    obtain ⟨p, hp⟩ := h x hx
    rw [hp] at hfx
    subst hfx
    rfl

theorem gatherSched_all_ok {α : Type} (sched : List Nat) (l : List α)
    (f : α → Except PyErr String) (h : ∀ x ∈ l, ∃ p, f x = Except.ok p) :
    gatherSched sched (l.map f) = okList (l.map f) := by
  have hnil : sched.filterMap (errAt (l.map f)) = [] :=
    List.filterMap_eq_nil_iff.mpr (fun j _ => errAt_all_ok l f h j)
  simp [gatherSched, hnil]

theorem filterMap_head_some (f : Nat → Option PyErr) :
    ∀ (sched : List Nat) (k : Nat) (e : PyErr), f k = some e →
      (∀ j ∈ sched, j ≠ k → f j = none) → k ∈ sched →
      (sched.filterMap f).head? = some e := by
  intro sched
  induction sched with
  | nil => intro k e _ _ hmem; cases hmem
  | cons j t ih =>
    intro k e hk honly hmem
    by_cases hjk : j = k
    · subst hjk; simp [List.filterMap_cons, hk]
    · have hj : f j = none := honly j (List.mem_cons_self j t) hjk
      have hkt : k ∈ t := by
        rcases List.mem_cons.mp hmem with h | h
        · exact absurd h.symm hjk
        · exact h
      simp only [List.filterMap_cons, hj]
      exact ih k e hk (fun i hi => honly i (List.mem_cons_of_mem j hi)) hkt

/-! ## C1 — failure isolation inside the playlist run -/

/-- C1 counterexample: in a three-item collection run where only the middle
item's transcode fails, the pipeline does not return one outcome per item —
`asyncio.gather` without `return_exceptions` re-raises the failure, so the
whole run aborts with the error and no outcome list of any kind is
returned. -/
theorem C1_counterexample :
    (download_playlist C1expand C1process [0, 1, 2] [] "playlistUrl").2 =
      Except.error PyErr.noAudio ∧
    ∀ outcomes : List String,
      (download_playlist C1expand C1process [0, 1, 2] [] "playlistUrl").2 ≠
        Except.ok outcomes :=
  ⟨rfl, fun _ h => Except.noConfusion h⟩

/-- C1 (amended): when exactly one scheduled item of a fresh collection run
fails, `download_playlist` re-raises that item's error to its caller — the
run aborts as a whole, returning no per-item outcome list; sibling tasks are
not cancelled (every task's result is still computed) but their results are
discarded. -/
theorem C1_gather_aborts {α : Type} (expand : String → List α)
    (process : α → Except PyErr String) (sched : List Nat) (url : String)
    (k : Nat) (e : PyErr)
    (hk : errAt ((expand url).map process) k = some e)
    (honly : ∀ j ∈ sched, j ≠ k → errAt ((expand url).map process) j = none)
    (hmem : k ∈ sched) :
    (download_playlist expand process sched [] url).2 = Except.error e := by
  have h := filterMap_head_some (errAt ((expand url).map process)) sched k e hk honly hmem
  simp [download_playlist, setPlaylist, gatherSched, h]

/-- C1 witness: the amended abort behaviour at a concrete three-item run with
a completion schedule that finishes the failing item last. -/
theorem C1_witness :
    (download_playlist C1expand C1process [2, 0, 1] [] "u").2 =
      Except.error PyErr.noAudio :=
  C1_gather_aborts C1expand C1process [2, 0, 1] "u" 1 PyErr.noAudio rfl
    (by decide) (by decide)

/-! ## C2 — order preservation -/

/-- C2: for a fresh strategy and any completion schedule, a collection run in
which every item succeeds returns one path per item, and the i-th returned
path is the result of processing the i-th member of the expanded collection —
output order equals enumeration order regardless of completion order. -/
theorem C2_order_preserved {α : Type} (expand : String → List α)
    (process : α → Except PyErr String) (sched : List Nat) (url : String)
    (hall : ∀ it ∈ expand url, ∃ p, process it = Except.ok p) :
    ∃ paths,
      download_playlist expand process sched [] url = (expand url, Except.ok paths) ∧
      paths.length = (expand url).length ∧
      ∀ i (hi : i < (expand url).length) (hv : i < paths.length),
        process ((expand url).get ⟨i, hi⟩) = Except.ok (paths.get ⟨i, hv⟩) := by
  obtain ⟨vs, hvs, hlen, hidx⟩ := okList_map_ok (expand url) process hall
  refine ⟨vs, ?_, hlen, hidx⟩
  simp only [download_playlist, setPlaylist, List.nil_append]
  rw [gatherSched_all_ok sched (expand url) process hall, hvs]


/-- C2 witness: order preservation at a concrete run whose completion
schedule finishes the second item first. -/
theorem C2_witness :
    ∃ paths,
      download_playlist C2expand C2process [1, 0] [] "u" =
        (C2expand "u", Except.ok paths) ∧
      paths.length = (C2expand "u").length ∧
      ∀ i (hi : i < (C2expand "u").length) (hv : i < paths.length),
        C2process ((C2expand "u").get ⟨i, hi⟩) = Except.ok (paths.get ⟨i, hv⟩) :=
  C2_order_preserved C2expand C2process [1, 0] "u" (fun it _ => ⟨it ++ ".mp3", rfl⟩)

/-! ## C3 — the concurrency ceiling -/

/-- C3: starting from a playlist of n submitted (pending) tasks, every state
reachable under the semaphore-bounded scheduler has at most
`max_concurrent_tasks` (= 4) items in flight; a pending task can only enter
the pool through the guarded `start` step, which requires a free slot. -/
theorem C3_concurrency_bound (n : Nat) (p : List TStatus)
    (h : PoolReach max_concurrent_tasks (List.replicate n TStatus.pending) p) :
    inFlight p ≤ max_concurrent_tasks :=
  poolReach_inFlight h
    (by rw [inFlight_replicate_pending]; exact Nat.zero_le _)

/-- C3 witness: the bound at a concrete reachable state of a six-item run in
which the first task has entered the pool. -/
theorem C3_witness :
    inFlight ((List.replicate 6 TStatus.pending).set 0 TStatus.materializing) ≤
      max_concurrent_tasks :=
  C3_concurrency_bound 6 _
    (PoolReach.step _ _ _ (PoolReach.refl _)
      (PoolStep.start _ 0 rfl (by decide)))

/-! ## C7 — the collection-detection check -/

/-- C7 counterexample: the detection check does not always return a boolean
and does not swallow every lookup failure — a lookup failure other than
`KeyError` propagates out of `is_playlist_url`, and an empty collection makes
the function fall through and return Python `None`. -/
theorem C7_counterexample :
    is_playlist_url (fun _ => Except.error PyErr.otherError) "someUrl" =
      Except.error PyErr.otherError ∧
    is_playlist_url (fun _ => Except.ok ([] : List Item)) "emptyPlaylist" =
      Except.ok none :=
  ⟨rfl, rfl⟩

/-- C7 (amended): the detection check swallows exactly the key-lookup failure
(`KeyError`), classifying the input as not a collection (`False`); a
non-empty collection classifies as `True`; an empty collection returns Python
`None`, which is falsy and therefore also degrades to single-item handling at
the call site; any other lookup failure propagates to the caller. -/
theorem C7_classification (lookup : String → Except PyErr (List Item)) (url : String) :
    (lookup url = Except.error PyErr.keyError →
      is_playlist_url lookup url = Except.ok (some false)) ∧
    (∀ vids, lookup url = Except.ok vids → vids ≠ [] →
      is_playlist_url lookup url = Except.ok (some true)) ∧
    (lookup url = Except.ok [] → is_playlist_url lookup url = Except.ok none) ∧
    (∀ e, e ≠ PyErr.keyError → lookup url = Except.error e →
      is_playlist_url lookup url = Except.error e) ∧
    pyTruthy (some false) = false ∧ pyTruthy none = false := by
  refine ⟨?_, ?_, ?_, ?_, rfl, rfl⟩
  · intro h; simp [is_playlist_url, h]
  · intro vids h hne
    cases vids with
    | nil => exact absurd rfl hne
    | cons v vt => simp [is_playlist_url, h, List.isEmpty]
  · intro h; simp [is_playlist_url, h, List.isEmpty]
  · intro e he h
    cases e with
    | keyError => exact absurd rfl he
    | fileNotFound => simp [is_playlist_url, h]
    | noAudio => simp [is_playlist_url, h]
    | noStream => simp [is_playlist_url, h]
    | notFound => simp [is_playlist_url, h]
    | otherError => simp [is_playlist_url, h]
    | fileExists => simp [is_playlist_url, h]

/-- C7 witness: the swallowed key-lookup failure at a concrete malformed
locator. -/
theorem C7_witness :
    is_playlist_url (fun _ => Except.error PyErr.keyError) "badUrl" =
      Except.ok (some false) :=
  (C7_classification (fun _ => Except.error PyErr.keyError) "badUrl").1 rfl

/-! ## C10 — the accumulating download queue -/

/-- C10: the playlist property setter appends the expanded members to the
queue without clearing it, so a second `download_playlist` call on the same
instance processes every item queued by the first call again, followed by the
second playlist's members, and its i-th output (i below the first playlist's
length) is the re-processed i-th item of the first playlist. -/
theorem C10_queue_append {α : Type} (expand : String → List α)
    (process : α → Except PyErr String) (s1 s2 : List Nat) (u1 u2 : String)
    (hall : ∀ it ∈ expand u1 ++ expand u2, ∃ p, process it = Except.ok p) :
    (download_playlist expand process s1 [] u1).1 = expand u1 ∧
    (download_playlist expand process s2
        (download_playlist expand process s1 [] u1).1 u2).1 =
      expand u1 ++ expand u2 ∧
    ∃ paths,
      (download_playlist expand process s2
          (download_playlist expand process s1 [] u1).1 u2).2 =
        Except.ok paths ∧
      paths.length = (expand u1).length + (expand u2).length ∧
      ∀ i (hi : i < (expand u1).length) (hv : i < paths.length),
        process ((expand u1).get ⟨i, hi⟩) = Except.ok (paths.get ⟨i, hv⟩) := by
  refine ⟨rfl, rfl, ?_⟩
  obtain ⟨vs, hvs, hlen, hidx⟩ := okList_map_ok (expand u1 ++ expand u2) process hall
  refine ⟨vs, ?_, by rw [hlen, List.length_append], ?_⟩
  · show gatherSched s2 ((setPlaylist expand (setPlaylist expand [] u1) u2).map process) =
      Except.ok vs
    simp only [setPlaylist, List.nil_append]
    rw [gatherSched_all_ok s2 (expand u1 ++ expand u2) process hall, hvs]
  · intro i hi hv
    have hi2 : i < (expand u1 ++ expand u2).length := by
      rw [List.length_append]; omega
    have := hidx i hi2 hv
    rwa [List.get_append i hi] at this


/-- C10 witness: the accumulated second run at two concrete playlists. -/
theorem C10_witness :
    (download_playlist C10expand C10process [0, 1] [] "plOne").1 = C10expand "plOne" ∧
    (download_playlist C10expand C10process [0, 1, 2]
        (download_playlist C10expand C10process [0, 1] [] "plOne").1 "plTwo").1 =
      C10expand "plOne" ++ C10expand "plTwo" ∧
    ∃ paths,
      (download_playlist C10expand C10process [0, 1, 2]
          (download_playlist C10expand C10process [0, 1] [] "plOne").1 "plTwo").2 =
        Except.ok paths ∧
      paths.length = (C10expand "plOne").length + (C10expand "plTwo").length ∧
      ∀ i (hi : i < (C10expand "plOne").length) (hv : i < paths.length),
        C10process ((C10expand "plOne").get ⟨i, hi⟩) = Except.ok (paths.get ⟨i, hv⟩) :=
  C10_queue_append C10expand C10process [0, 1] [0, 1, 2] "plOne" "plTwo"
    (fun it _ => ⟨it ++ ".mp3", rfl⟩)


/-! ## Lemmas about the Python string replace -/

theorem isPrefixOf_self (l : List Char) : l.isPrefixOf l = true := by
  induction l with
  | nil => rfl
  | cons c t ih => simp [List.isPrefixOf, ih]

theorem replaceFuel_nil (pat repl : List Char) (fuel : Nat) :
    replaceFuel pat repl fuel [] = [] := by
  cases fuel <;> rfl

theorem replaceFuel_stem (pat repl : List Char) (hp : pat ≠ []) :
    ∀ (stem : List Char) (fuel : Nat), stem.length + pat.length ≤ fuel →
      (∀ i, i < stem.length → pat.isPrefixOf ((stem ++ pat).drop i) = false) →
      replaceFuel pat repl fuel (stem ++ pat) = stem ++ repl := by
  intro stem
  induction stem with
  | nil =>
    intro fuel hfuel honce
    cases pat with
    | nil => exact absurd rfl hp
    | cons c pt =>
      cases fuel with
      | zero => simp at hfuel
      | succ f =>
        have hcond : (List.isPrefixOf (c :: pt) (c :: pt) && !(c :: pt).isEmpty) = true := by
          simp [isPrefixOf_self]
        simp only [List.nil_append, replaceFuel, hcond, if_true, List.drop_length,
          replaceFuel_nil, List.append_nil]
  | cons s0 st ih =>
    intro fuel hfuel honce
    cases fuel with
    | zero => simp [List.length_cons] at hfuel
    | succ f =>
      have hfuel2 : st.length + pat.length ≤ f := by
        simp [List.length_cons] at hfuel; omega
      have honce2 : ∀ i, i < st.length → pat.isPrefixOf ((st ++ pat).drop i) = false := by
        intro i hi
        have h := honce (i + 1) (by simp [List.length_cons]; omega)
        rwa [List.cons_append, List.drop_succ_cons] at h
      have h0 : (pat.isPrefixOf (s0 :: (st ++ pat)) && !pat.isEmpty) = false := by
        have h := honce 0 (by simp)
        simp only [List.drop_zero, List.cons_append] at h
        simp [h]
      simp only [List.cons_append, replaceFuel, List.append_eq, h0,
        Bool.false_eq_true, if_false]
      exact congrArg (fun l => s0 :: l) (ih f hfuel2 honce2)


theorem append_mp4_ne_mp3 (stemL : List Char) :
    (⟨stemL ++ mp4ext⟩ : String) ≠ ⟨stemL ++ mp3ext⟩ := by
  intro h
  have hdata : stemL ++ mp4ext = stemL ++ mp3ext := congrArg String.data h
  have hext : mp4ext = mp3ext := List.append_cancel_left hdata
  exact absurd hext (by decide)

/-! ## C6 — transcode move semantics -/

/-- C6 counterexample: for the existing source path `"song.avi"` a successful
transcode does not write a sibling file with the audio extension — the
`.replace(".mp4", ".mp3")` computation leaves the path unchanged, so the codec
output overwrites the source, the unlink then deletes it, and afterwards no
file exists at all (in particular none at the expected sibling
`"song.mp3"`). -/
theorem C6_counterexample :
    convert_to_mp3 (fun _ => true) ["song.avi"] "song.avi" =
      Except.ok ([], "song.avi") ∧
    ∀ q : String, q ∉ ([] : FS) :=
  ⟨rfl, fun q h => List.not_mem_nil q h⟩

/-- C6 (amended): for a duplicate-free filesystem and a source path of the
form `stem ++ ".mp4"` whose only occurrence of `".mp4"` is the final
extension, a successful transcode returns the sibling `stem ++ ".mp3"`, the
sibling exists afterwards, the source no longer exists, and no other new file
appears; a missing source fails with the not-found error and an absent audio
track fails with the no-audio error, in both cases writing nothing. -/
theorem C6_transcode_move (hasAudio : String → Bool) (fs : FS) (stemL : List Char)
    (hnd : fs.Nodup)
    (hmem : (⟨stemL ++ mp4ext⟩ : String) ∈ fs)
    (haud : hasAudio ⟨stemL ++ mp4ext⟩ = true)
    (honce : ∀ i, i < stemL.length → mp4ext.isPrefixOf ((stemL ++ mp4ext).drop i) = false) :
    (∃ fs2,
      convert_to_mp3 hasAudio fs ⟨stemL ++ mp4ext⟩ =
        Except.ok (fs2, ⟨stemL ++ mp3ext⟩) ∧
      (⟨stemL ++ mp3ext⟩ : String) ∈ fs2 ∧
      (⟨stemL ++ mp4ext⟩ : String) ∉ fs2 ∧
      ∀ q ∈ fs2, q = (⟨stemL ++ mp3ext⟩ : String) ∨ q ∈ fs) ∧
    (∀ gs p, p ∉ gs → convert_to_mp3 hasAudio gs p = Except.error PyErr.fileNotFound) ∧
    (∀ gs p, p ∈ gs → hasAudio p = false →
      convert_to_mp3 hasAudio gs p = Except.error PyErr.noAudio) := by
  have hrep : pyReplace ⟨stemL ++ mp4ext⟩ ".mp4" ".mp3" = ⟨stemL ++ mp3ext⟩ := by
    exact congrArg String.mk
      (replaceFuel_stem mp4ext mp3ext (by decide) stemL (stemL ++ mp4ext).length
        (by simp [List.length_append]) honce)
  have hne : (⟨stemL ++ mp4ext⟩ : String) ≠ ⟨stemL ++ mp3ext⟩ := append_mp4_ne_mp3 stemL
  refine ⟨⟨removeFile (writeFile fs ⟨stemL ++ mp3ext⟩) ⟨stemL ++ mp4ext⟩, ?_, ?_, ?_, ?_⟩,
    ?_, ?_⟩
  · simp [convert_to_mp3, hmem, haud, hrep]
  · exact (List.mem_erase_of_ne (fun h => hne h.symm)).mpr
      (mem_insertOnce_self fs ⟨stemL ++ mp3ext⟩)
  · intro hcontra
    have hnd1 : (writeFile fs ⟨stemL ++ mp3ext⟩).Nodup :=
      nodup_insertOnce fs ⟨stemL ++ mp3ext⟩ hnd
    exact ((hnd1.mem_erase_iff).mp hcontra).1 rfl
  · intro q hq
    have hq1 : q ∈ writeFile fs ⟨stemL ++ mp3ext⟩ := List.mem_of_mem_erase hq
    exact mem_insertOnce_elim fs ⟨stemL ++ mp3ext⟩ q hq1
  · intro gs p hout
    simp [convert_to_mp3, hout]
  · intro gs p hin hfa
    simp [convert_to_mp3, hin, hfa]

/-- C6 witness: the amended move semantics at the concrete source
`"downloads/track.mp4"`. -/
theorem C6_witness :
    ∃ fs2,
      convert_to_mp3 (fun _ => true) ["downloads/track.mp4"]
          ⟨"downloads/track".data ++ mp4ext⟩ =
        Except.ok (fs2, ⟨"downloads/track".data ++ mp3ext⟩) ∧
      (⟨"downloads/track".data ++ mp3ext⟩ : String) ∈ fs2 ∧
      (⟨"downloads/track".data ++ mp4ext⟩ : String) ∉ fs2 ∧
      ∀ q ∈ fs2, q = (⟨"downloads/track".data ++ mp3ext⟩ : String) ∨
        q ∈ ["downloads/track.mp4"] :=
  (C6_transcode_move (fun _ => true) ["downloads/track.mp4"] "downloads/track".data
    (by decide) (by decide) rfl (by decide)).1


/-! ## Lemmas about the slug model -/

theorem mem_collapseDash {l : List Char} {x : Char} (h : x ∈ collapseDash l) :
    x ∈ l := by
  induction l with
  | nil => cases h
  | cons a t ih =>
    cases t with
    | nil =>
      simp only [collapseDash] at h
      exact h
    | cons b rest =>
      simp only [collapseDash] at h
      by_cases hab : (a == '-' && b == '-') = true
      · rw [if_pos hab] at h
        exact List.mem_cons_of_mem a (ih h)
      · rw [if_neg hab] at h
        rcases List.mem_cons.mp h with rfl | h2
        · exact List.mem_cons_self _ _
        · exact List.mem_cons_of_mem a (ih h2)

theorem collapseDash_head (l : List Char) :
    ∀ b : Char, (collapseDash (b :: l)).head? = some b := by
  induction l with
  | nil => intro b; rfl
  | cons c rest ih =>
    intro b
    simp only [collapseDash]
    by_cases hbc : (b == '-' && c == '-') = true
    · rw [if_pos hbc]
      obtain ⟨hb, hc⟩ := Bool.and_eq_true_iff.mp hbc
      rw [ih c, eq_of_beq hb, eq_of_beq hc]
    · rw [if_neg hbc]; rfl

theorem collapseDash_chain (l : List Char) :
    List.Chain' (fun a b => ¬(a = '-' ∧ b = '-')) (collapseDash l) := by
  induction l with
  | nil => simp [collapseDash]
  | cons a t ih =>
    cases t with
    | nil => simp [collapseDash]
    | cons b rest =>
      simp only [collapseDash]
      by_cases hab : (a == '-' && b == '-') = true
      · rw [if_pos hab]; exact ih
      · rw [if_neg hab]
        rw [List.chain'_cons']
        refine ⟨?_, ih⟩
        intro y hy
        rw [collapseDash_head rest b] at hy
        have hyb : b = y := by simpa using hy
        subst hyb
        intro hcontra
        exact hab (by simp [hcontra.1, hcontra.2])

theorem trimRightDash_eq_append (l : List Char) :
    ∃ t, l = trimRightDash l ++ t := by
  induction l with
  | nil => exact ⟨[], rfl⟩
  | cons c rest ih =>
    obtain ⟨t, ht⟩ := ih
    simp only [trimRightDash]
    cases hout : trimRightDash rest with
    | nil =>
      by_cases hc : (c == '-') = true
      · rw [if_pos hc]
        exact ⟨c :: rest, rfl⟩
      · rw [if_neg hc]
        rw [hout] at ht
        exact ⟨rest, rfl⟩
    | cons o os =>
      rw [hout] at ht
      exact ⟨t, by rw [List.cons_append, ← ht]⟩

theorem trimRightDash_getLast_ne (l : List Char) :
    ∀ c, (trimRightDash l).getLast? = some c → c ≠ '-' := by
  induction l with
  | nil => intro c h; cases h
  | cons x rest ih =>
    intro c h
    simp only [trimRightDash] at h
    cases hout : trimRightDash rest with
    | nil =>
      rw [hout] at h
      by_cases hx : (x == '-') = true
      · rw [if_pos hx] at h; cases h
      · rw [if_neg hx] at h
        have hcx : x = c := by simpa [List.getLast?] using h
        subst hcx
        exact fun hcontra => hx (by simp [hcontra])
    | cons o os =>
      rw [hout, List.getLast?_cons_cons] at h
      rw [← hout] at h
      exact ih c h

theorem trimRightDash_head (l : List Char) :
    trimRightDash l = [] ∨ (trimRightDash l).head? = l.head? := by
  cases l with
  | nil => exact Or.inl rfl
  | cons c rest =>
    simp only [trimRightDash]
    cases hout : trimRightDash rest with
    | nil =>
      by_cases hc : (c == '-') = true
      · rw [if_pos hc]; exact Or.inl rfl
      · rw [if_neg hc]; exact Or.inr rfl
    | cons o os => exact Or.inr rfl

theorem mem_trimRightDash {l : List Char} {x : Char} (h : x ∈ trimRightDash l) :
    x ∈ l := by
  obtain ⟨t, ht⟩ := trimRightDash_eq_append l
  rw [ht]
  exact List.mem_append_left t h

theorem chain_trimRightDash {R : Char → Char → Prop} {l : List Char}
    (h : List.Chain' R l) : List.Chain' R (trimRightDash l) := by
  obtain ⟨t, ht⟩ := trimRightDash_eq_append l
  rw [ht] at h
  exact (List.chain'_append.mp h).1

theorem mem_dropWhile {p : Char → Bool} {l : List Char} {x : Char}
    (h : x ∈ l.dropWhile p) : x ∈ l := by
  induction l with
  | nil => cases h
  | cons c t ih =>
    rw [List.dropWhile_cons] at h
    by_cases hc : p c = true
    · rw [if_pos hc] at h
      exact List.mem_cons_of_mem c (ih h)
    · rw [if_neg hc] at h
      exact h

theorem head_dropWhile_not {p : Char → Bool} (l : List Char) :
    ∀ c, (l.dropWhile p).head? = some c → p c = false := by
  induction l with
  | nil => intro c h; cases h
  | cons a t ih =>
    intro c h
    rw [List.dropWhile_cons] at h
    by_cases ha : p a = true
    · rw [if_pos ha] at h
      exact ih c h
    · rw [if_neg ha] at h
      have hca : a = c := by simpa using h
      subst hca
      exact Bool.eq_false_iff.mpr ha

theorem chain_dropWhile {R : Char → Char → Prop} {p : Char → Bool} {l : List Char}
    (h : List.Chain' R l) : List.Chain' R (l.dropWhile p) := by
  induction l with
  | nil => simp
  | cons a t ih =>
    rw [List.dropWhile_cons]
    by_cases ha : p a = true
    · rw [if_pos ha]
      exact ih (List.chain'_cons'.mp h).2
    · rw [if_neg ha]
      exact h

/-! ## C9 — sanitize and rename -/

/-- C9 counterexample: for the materialized file `"downloads/My Song.webm"`
the rename target carries the fixed `.mp4` suffix, not the original `.webm`
extension the claim promises. -/
theorem C9_counterexample :
    (slugify_rename "My Song" ["downloads/My Song.webm"] "downloads/My Song.webm").2 =
      "downloads/my-song.mp4" ∧
    "downloads/my-song.mp4" ≠ "downloads/my-song" ++ ".webm" :=
  ⟨rfl, by decide⟩

/-- C9 (amended): sanitize-and-rename moves the materialized file to
`<slug>.mp4` within the same directory — the extension is the fixed literal
`.mp4`, which coincides with the original extension only for mp4 sources —
where the slug is a deterministic function of the title containing only
dashes and lowercased alphanumeric characters, with no two adjacent dashes
and no dash at either end. -/
theorem C9_slug_rename (title : String) (fs : FS) (audio_path : String) :
    (slugify_rename title fs audio_path).2 =
      joinPath (parentDir audio_path) (slugify title ++ ".mp4") ∧
    (slugify_rename title fs audio_path).2 ∈ (slugify_rename title fs audio_path).1 ∧
    (∀ t1 t2 : String, t1 = t2 → slugify t1 = slugify t2) ∧
    (∀ c ∈ (slugify title).data, c = '-' ∨ ∃ d, isAlnum d = true ∧ c = d.toLower) ∧
    List.Chain' (fun a b => ¬(a = '-' ∧ b = '-')) (slugify title).data ∧
    (∀ c, (slugify title).data.head? = some c → c ≠ '-') ∧
    (∀ c, (slugify title).data.getLast? = some c → c ≠ '-') := by
  refine ⟨rfl, mem_insertOnce_self _ _, fun t1 t2 h => by rw [h], ?_, ?_, ?_, ?_⟩
  · intro c hc
    have hc2 : c ∈ trimRightDash ((collapseDash
        (title.data.map (fun d => if isAlnum d then d.toLower else '-'))).dropWhile
          (· == '-')) := hc
    have hc3 := mem_dropWhile (mem_trimRightDash hc2)
    have hc4 := mem_collapseDash hc3
    obtain ⟨d, hd, hfd⟩ := List.mem_map.mp hc4
    by_cases hal : isAlnum d = true
    · right
      refine ⟨d, hal, ?_⟩
      rw [← hfd, if_pos hal]
    · left
      rw [← hfd, if_neg hal]
  · exact chain_trimRightDash (chain_dropWhile (collapseDash_chain _))
  · intro c hhead
    have hh : (trimRightDash ((collapseDash
        (title.data.map (fun d => if isAlnum d then d.toLower else '-'))).dropWhile
          (· == '-'))).head? = some c := hhead
    rcases trimRightDash_head ((collapseDash
        (title.data.map (fun d => if isAlnum d then d.toLower else '-'))).dropWhile
          (· == '-')) with hnil | hpres
    · rw [hnil] at hh; cases hh
    · rw [hpres] at hh
      have := head_dropWhile_not _ c hh
      simpa using this
  · intro c hlast
    exact trimRightDash_getLast_ne _ c hlast

/-- C9 witness: the rename equation at the spec's own slug example, the title
`"My Song! (Live)"`. -/
theorem C9_witness :
    (slugify_rename "My Song! (Live)" [] "downloads/file.mp4").2 =
      joinPath (parentDir "downloads/file.mp4") (slugify "My Song! (Live)" ++ ".mp4") :=
  (C9_slug_rename "My Song! (Live)" [] "downloads/file.mp4").1


/-! ## Characterization of the single-item download -/


theorem handle_download_true_spec (st : DlState) (out : Option String) (s : StreamH)
    (t : String) :
    (handle_download st out s t true).2.1 = slugTarget out s t ∧
    (handle_download st out s t true).2.1 ∈ (handle_download st out s t true).1.files ∧
    (handle_download st out s t true).1.dirs = st.dirs := by
  unfold handle_download streamDownload slugify_rename slugTarget
  by_cases hmem : joinPath (outOrDefault out) s.defaultName ∈ st.files
  · simp [hmem, writeFile, mem_insertOnce_self]
  · simp [hmem, writeFile, mem_insertOnce_self]

theorem handle_download_false_spec (st : DlState) (out : Option String) (s : StreamH)
    (t : String) :
    (handle_download st out s t false).2.1 = vidTarget out s ∧
    vidTarget out s ∈ (handle_download st out s t false).1.files ∧
    (handle_download st out s t false).1.dirs = st.dirs ∧
    (vidTarget out s ∈ st.files →
      handle_download st out s t false = (st, vidTarget out s, false)) := by
  unfold handle_download streamDownload vidTarget
  by_cases hmem : joinPath (outOrDefault out) s.defaultName ∈ st.files
  · simp [hmem]
  · simp [hmem, writeFile, mem_insertOnce_self]

theorem download_search_err (searchFn : String → Except PyErr Item)
    (hasAudio : String → Bool)
    (playlistRun : DlState → Except PyErr (DlState × List String))
    (st : DlState) (q : String) (out : Option String) (b : Bool) (e : PyErr)
    (hs : searchFn q = Except.error e) :
    download searchFn hasAudio false playlistRun st q out b = Except.error e := by
  simp [download, hs]

theorem download_audio_nostream (searchFn : String → Except PyErr Item)
    (hasAudio : String → Bool)
    (playlistRun : DlState → Except PyErr (DlState × List String))
    (st : DlState) (q : String) (out : Option String) (item : Item)
    (hs : searchFn q = Except.ok item) (ha : item.audioStream = none) :
    download searchFn hasAudio false playlistRun st q out true =
      Except.error PyErr.noStream := by
  simp [download, hs, download_audio_only, ha]

theorem download_video_nostream (searchFn : String → Except PyErr Item)
    (hasAudio : String → Bool)
    (playlistRun : DlState → Except PyErr (DlState × List String))
    (st : DlState) (q : String) (out : Option String) (item : Item)
    (hs : searchFn q = Except.ok item) (hv : item.videoStream = none) :
    download searchFn hasAudio false playlistRun st q out false =
      Except.error PyErr.noStream := by
  simp [download, hs, download_video_only, hv]

theorem download_audio_spec (searchFn : String → Except PyErr Item)
    (hasAudio : String → Bool)
    (playlistRun : DlState → Except PyErr (DlState × List String))
    (st : DlState) (q : String) (out : Option String) (item : Item) (s : StreamH)
    (hs : searchFn q = Except.ok item) (ha : item.audioStream = some s)
    (htr : hasAudio (slugTarget out s item.title) = true) :
    ∃ st2 tr,
      download searchFn hasAudio false playlistRun st q out true =
        Except.ok (st2,
          DlOut.single (pyReplace (slugTarget out s item.title) ".mp4" ".mp3") tr) ∧
      st2.dirs = create_download_directory st.dirs "downloads" := by
  obtain ⟨hpath, hmem, hdirs⟩ := handle_download_true_spec
    { st with dirs := create_download_directory st.dirs "downloads" } out s item.title
  simp only [download, if_neg (Bool.false_ne_true), hs, if_pos rfl, download_audio_only, ha]
  rw [hpath] at hmem
  simp [convert_to_mp3, hpath, hmem, htr, hdirs]

theorem download_audio_noaudio (searchFn : String → Except PyErr Item)
    (hasAudio : String → Bool)
    (playlistRun : DlState → Except PyErr (DlState × List String))
    (st : DlState) (q : String) (out : Option String) (item : Item) (s : StreamH)
    (hs : searchFn q = Except.ok item) (ha : item.audioStream = some s)
    (htr : hasAudio (slugTarget out s item.title) = false) :
    download searchFn hasAudio false playlistRun st q out true =
      Except.error PyErr.noAudio := by
  obtain ⟨hpath, hmem, hdirs⟩ := handle_download_true_spec
    { st with dirs := create_download_directory st.dirs "downloads" } out s item.title
  simp only [download, hs, download_audio_only, ha]
  rw [hpath] at hmem
  simp [convert_to_mp3, hpath, hmem, htr]

theorem download_video_spec (searchFn : String → Except PyErr Item)
    (hasAudio : String → Bool)
    (playlistRun : DlState → Except PyErr (DlState × List String))
    (st : DlState) (q : String) (out : Option String) (item : Item) (s : StreamH)
    (hs : searchFn q = Except.ok item) (hv : item.videoStream = some s) :
    ∃ st2 tr,
      download searchFn hasAudio false playlistRun st q out false =
        Except.ok (st2, DlOut.single (vidTarget out s) tr) ∧
      st2.dirs = create_download_directory st.dirs "downloads" ∧
      vidTarget out s ∈ st2.files ∧
      (vidTarget out s ∈ st.files → tr = false) := by
  obtain ⟨hpath, hmem, hdirs, hskip⟩ := handle_download_false_spec
    { st with dirs := create_download_directory st.dirs "downloads" } out s item.title
  simp only [download, hs, download_video_only, hv]
  refine ⟨(handle_download { st with dirs := create_download_directory st.dirs "downloads" }
      out s item.title false).1,
    (handle_download { st with dirs := create_download_directory st.dirs "downloads" }
      out s item.title false).2.2, ?_, hdirs, ?_, ?_⟩
  · simp [hpath]
  · exact hmem
  · intro hin
    rw [hskip hin]


/-! ## C4 — idempotent re-fetch -/

/-- C4 counterexample: fetching the same song twice in audio mode yields the
same final path `"downloads/my-song.mp3"` both times, but the second call
reports a performed transfer (`true`) again — the first call's
slugify-rename-and-convert removed the file from the stream's target name
`"downloads/My Song.mp4"`, so `skip_existing` finds nothing to skip and the
transfer is redone. -/
theorem C4_counterexample :
    download C4search (fun _ => true) false noPlaylistRun ⟨[], []⟩ "my song" none true =
      Except.ok (⟨["downloads"], ["downloads/my-song.mp3"]⟩,
        DlOut.single "downloads/my-song.mp3" true) ∧
    download C4search (fun _ => true) false noPlaylistRun
        ⟨["downloads"], ["downloads/my-song.mp3"]⟩ "my song" none true =
      Except.ok (⟨["downloads"], ["downloads/my-song.mp3"]⟩,
        DlOut.single "downloads/my-song.mp3" true) :=
  ⟨rfl, rfl⟩

/-- C4 (amended): two successive single-item fetches with the same input and
destination produce the same final path both times, and the transfer step
itself skips whenever a file with the stream's target name is already
present — in particular a second video-mode call performs no transfer; in
audio mode, however, the slugify rename moves the materialized file away from
the stream's target name (and the conversion then deletes it), so the second
call's transfer is not skipped. -/
theorem C4_idempotent_path (searchFn : String → Except PyErr Item)
    (hasAudio : String → Bool)
    (playlistRun : DlState → Except PyErr (DlState × List String))
    (st : DlState) (q : String) (out : Option String) (b : Bool)
    (st1 st2 : DlState) (p1 p2 : String) (t1 t2 : Bool)
    (h1 : download searchFn hasAudio false playlistRun st q out b =
      Except.ok (st1, DlOut.single p1 t1))
    (h2 : download searchFn hasAudio false playlistRun st1 q out b =
      Except.ok (st2, DlOut.single p2 t2)) :
    p1 = p2 ∧ (b = false → t2 = false) ∧
    ∀ fs o n, joinPath o n ∈ fs → streamDownload fs o n = (fs, joinPath o n, false) := by
  have hskip : ∀ (fs : FS) (o n : String), joinPath o n ∈ fs →
      streamDownload fs o n = (fs, joinPath o n, false) := by
    intro fs o n h
    simp [streamDownload, h]
  rcases hs : searchFn q with e | item
  · rw [download_search_err searchFn hasAudio playlistRun st q out b e hs] at h1
    exact absurd h1 (fun h => Except.noConfusion h)
  · cases b with
    | true =>
      rcases ha : item.audioStream with _ | s
      · rw [download_audio_nostream searchFn hasAudio playlistRun st q out item hs ha] at h1
        exact absurd h1 (fun h => Except.noConfusion h)
      · by_cases htr : hasAudio (slugTarget out s item.title) = true
        · obtain ⟨sa, ta, hea, _⟩ :=
            download_audio_spec searchFn hasAudio playlistRun st q out item s hs ha htr
          obtain ⟨sb, tb, heb, _⟩ :=
            download_audio_spec searchFn hasAudio playlistRun st1 q out item s hs ha htr
          rw [hea] at h1
          rw [heb] at h2
          obtain ⟨hp1, -⟩ := DlOut.single.inj (Prod.mk.inj (Except.ok.inj h1)).2
          obtain ⟨hp2, -⟩ := DlOut.single.inj (Prod.mk.inj (Except.ok.inj h2)).2
          exact ⟨hp1.symm.trans hp2, fun hb => absurd hb (fun h => Bool.noConfusion h), hskip⟩
        · have htr2 : hasAudio (slugTarget out s item.title) = false :=
            Bool.eq_false_iff.mpr htr
          rw [download_audio_noaudio searchFn hasAudio playlistRun st q out item s
            hs ha htr2] at h1
          exact absurd h1 (fun h => Except.noConfusion h)
    | false =>
      rcases hv : item.videoStream with _ | s
      · rw [download_video_nostream searchFn hasAudio playlistRun st q out item hs hv] at h1
        exact absurd h1 (fun h => Except.noConfusion h)
      · obtain ⟨sa, ta, hea, _, hmema, _⟩ :=
          download_video_spec searchFn hasAudio playlistRun st q out item s hs hv
        obtain ⟨sb, tb, heb, _, _, hsk⟩ :=
          download_video_spec searchFn hasAudio playlistRun st1 q out item s hs hv
        rw [hea] at h1
        rw [heb] at h2
        obtain ⟨hsa, houta⟩ := Prod.mk.inj (Except.ok.inj h1)
        obtain ⟨hsb, houtb⟩ := Prod.mk.inj (Except.ok.inj h2)
        obtain ⟨hp1, ht1⟩ := DlOut.single.inj houta
        obtain ⟨hp2, ht2⟩ := DlOut.single.inj houtb
        have hmem1 : vidTarget out s ∈ st1.files := hsa ▸ hmema
        have htb : tb = false := hsk hmem1
        exact ⟨hp1.symm.trans hp2, fun _ => ht2 ▸ htb, hskip⟩

/-- C4 witness: the path equality at two concrete successive video-mode
fetches. -/
theorem C4_witness :
    ("downloads/My Song.mp4" : String) = "downloads/My Song.mp4" :=
  (C4_idempotent_path C4search (fun _ => true) noPlaylistRun ⟨[], []⟩ "my song" none
    false ⟨["downloads"], ["downloads/My Song.mp4"]⟩
    ⟨["downloads"], ["downloads/My Song.mp4"]⟩
    "downloads/My Song.mp4" "downloads/My Song.mp4" true false rfl rfl).1

/-! ## C5 — the single-item entry point's return value -/

/-- C5: the base `DownloadStrategy.download` does return the produced file's
path — the converted mp3 in audio mode, the downloaded video file in video
mode — but the audio-mode entry point `AudioDownload.download` drops the
value: it awaits the base call without a `return` statement and evaluates to
Python `None` instead of the mp3 path. -/
theorem C5_audio_download_returns_none :
    download C5search (fun _ => true) false noPlaylistRun ⟨[], []⟩ "tune" none true =
      Except.ok (⟨["downloads"], ["downloads/tune.mp3"]⟩,
        DlOut.single "downloads/tune.mp3" true) ∧
    AudioDownload_download C5search (fun _ => true) false noPlaylistRun
        ⟨[], []⟩ "tune" none =
      Except.ok (⟨["downloads"], ["downloads/tune.mp3"]⟩, none) ∧
    download C5search (fun _ => true) false noPlaylistRun ⟨[], []⟩ "tune" none false =
      Except.ok (⟨["downloads"], ["downloads/Tune.mp4"]⟩,
        DlOut.single "downloads/Tune.mp4" true) :=
  ⟨rfl, rfl, rfl⟩

/-! ## C8 — destination-directory creation -/

/-- C8 counterexample: a fetch with the explicitly supplied destination
`"music"` transfers into `"music"` while the only directory the pipeline
created beforehand is the fixed `"downloads"` — the supplied destination was
never created by the pipeline. -/
theorem C8_counterexample :
    download C8search (fun _ => true) false noPlaylistRun ⟨[], []⟩ "q"
        (some "music") false =
      Except.ok (⟨["downloads"], ["music/Vid.mp4"]⟩,
        DlOut.single "music/Vid.mp4" true) ∧
    "music" ∉ (⟨["downloads"], ["music/Vid.mp4"]⟩ : DlState).dirs :=
  ⟨rfl, by decide⟩

/-- C8 (amended): every successful single-item fetch creates exactly the
fixed `"downloads"` directory (with its ancestors) before dispatch,
regardless of the supplied destination, which the pipeline itself never
creates; the creation is idempotent — `os.makedirs` with `exist_ok` never
fails and re-creating an existing tree leaves it unchanged. -/
theorem C8_creates_default_dir (searchFn : String → Except PyErr Item)
    (hasAudio : String → Bool)
    (playlistRun : DlState → Except PyErr (DlState × List String))
    (st : DlState) (q : String) (out : Option String) (b : Bool)
    (st2 : DlState) (o : DlOut)
    (hrun : download searchFn hasAudio false playlistRun st q out b =
      Except.ok (st2, o)) :
    st2.dirs = addAncestors st.dirs "downloads" ∧
    (∀ ds p, os_makedirs true ds p = Except.ok (addAncestors ds p)) ∧
    (∀ ds p, addAncestors (addAncestors ds p) p = addAncestors ds p) := by
  refine ⟨?_, fun ds p => by simp [os_makedirs], fun ds p => addAncestors_idem ds p⟩
  rcases hs : searchFn q with e | item
  · rw [download_search_err searchFn hasAudio playlistRun st q out b e hs] at hrun
    exact absurd hrun (fun h => Except.noConfusion h)
  · cases b with
    | true =>
      rcases ha : item.audioStream with _ | s
      · rw [download_audio_nostream searchFn hasAudio playlistRun st q out item hs ha]
          at hrun
        exact absurd hrun (fun h => Except.noConfusion h)
      · by_cases htr : hasAudio (slugTarget out s item.title) = true
        · obtain ⟨sa, ta, hea, hdirs⟩ :=
            download_audio_spec searchFn hasAudio playlistRun st q out item s hs ha htr
          rw [hea] at hrun
          obtain ⟨hsa, -⟩ := Prod.mk.inj (Except.ok.inj hrun)
          rw [← hsa, hdirs]
          rfl
        · have htr2 : hasAudio (slugTarget out s item.title) = false :=
            Bool.eq_false_iff.mpr htr
          rw [download_audio_noaudio searchFn hasAudio playlistRun st q out item s
            hs ha htr2] at hrun
          exact absurd hrun (fun h => Except.noConfusion h)
    | false =>
      rcases hv : item.videoStream with _ | s
      · rw [download_video_nostream searchFn hasAudio playlistRun st q out item hs hv]
          at hrun
        exact absurd hrun (fun h => Except.noConfusion h)
      · obtain ⟨sa, ta, hea, hdirs, -, -⟩ :=
          download_video_spec searchFn hasAudio playlistRun st q out item s hs hv
        rw [hea] at hrun
        obtain ⟨hsa, -⟩ := Prod.mk.inj (Except.ok.inj hrun)
        rw [← hsa, hdirs]
        rfl

/-- C8 witness: the created-directory equation at the concrete fetch of the
counterexample, whose supplied destination is `"music"`. -/
theorem C8_witness :
    (⟨["downloads"], ["music/Vid.mp4"]⟩ : DlState).dirs =
      addAncestors ([] : List String) "downloads" :=
  (C8_creates_default_dir C8search (fun _ => true) noPlaylistRun ⟨[], []⟩ "q"
    (some "music") false ⟨["downloads"], ["music/Vid.mp4"]⟩
    (DlOut.single "music/Vid.mp4" true) rfl).1

end PyTuneGrab
